import Mathlib

/-!
Shallow embedding of two Python utility scripts:
  - `ntfy-qBittorrent.py` (Program A): torrent-completion notification hook
  - `portage-set-compare.py` (Program B): directory set comparison tool

Strings are modelled by Lean `String` / `List Char`; Python `int` by `Nat`
(all relevant quantities are non-negative); Python `dict` by an ordered
association list `List (String × Nat)` with unique keys, matching the
insertion-order semantics of Python dictionaries.
-/

/-! ## Shared Python string primitives -/

/-- Models the whitespace set of Python `str.strip()` on the ASCII range. -/
def pyIsSpace (c : Char) : Bool :=
  c == ' ' || c == '\t' || c == '\n' || c == '\r' || c == '\x0b' || c == '\x0c'

/-- Models Python `str.strip()` (no argument): drop leading and trailing whitespace. -/
def pyStrip (s : String) : String :=
  String.mk (((s.data.dropWhile pyIsSpace).reverse.dropWhile pyIsSpace).reverse)

/-- Models Python `str.rstrip(c)` for a single strip character `c`:
drop every trailing occurrence of `c`. -/
def rstripAll (c : Char) (s : String) : String :=
  String.mk ((s.data.reverse.dropWhile (fun x => x == c)).reverse)

/-- Models Python `str.strip(c)` for a single strip character `c`:
drop every leading and trailing occurrence of `c`. -/
def stripAll (c : Char) (s : String) : String :=
  String.mk (((s.data.dropWhile (fun x => x == c)).reverse.dropWhile (fun x => x == c)).reverse)

/-! ## Program A: TorrentInfo -/

/-- The non-printable-replacement step of `TorrentInfo._parse_name`:
`if not value.isprintable(): value = "".join(ch if ch.isprintable() else "." for ch in value)`,
parameterised by the ambient `str.isprintable` character predicate (a
Python built-in, external to the script). -/
def sanitizeName (printable : Char → Bool) (value : List Char) : List Char :=
  if value.all printable then value
  else value.map (fun ch => if printable ch then ch else '.')

/-- The truncation step of `TorrentInfo._parse_name`:
`if len(value) >= 256: value = value[:254] + "…"`. -/
def truncateName (value : List Char) : List Char :=
  if value.length ≥ 256 then value.take 254 ++ ['…'] else value

/-- Embeds `TorrentInfo._parse_name`: empty input yields `none`; otherwise
non-printable characters are replaced by `'.'` and names of length ≥ 256
are truncated to 254 characters plus one ellipsis character. -/
def parseName (printable : Char → Bool) (value : List Char) : Option (List Char) :=
  if value = [] then none
  else some (truncateName (sanitizeName printable value))

/-- A concrete instance of Python `str.isprintable` restricted to the
characters exercised by the witnesses: printable ASCII plus the horizontal
ellipsis character. -/
def asciiPrintable (c : Char) : Bool :=
  c == '…' || (0x20 ≤ c.toNat && c.toNat ≤ 0x7e)

/-- Embeds the IEC prefix tuple of `TorrentInfo.size_human_readable`. -/
def iecPrefixes : List String := ["B", "KiB", "MiB", "GiB", "TiB", "PiB", "EiB"]

/-- Embeds `self.size.bit_length()`: for `n ≥ 1` this is `⌊log₂ n⌋ + 1`,
and `0` for `n = 0`, exactly `Nat.size`. -/
def bitLength (n : Nat) : Nat := Nat.size n

/-- Embeds `iec_idx = (self.size.bit_length() - 1) // 10`. -/
def iecIdx (s : Nat) : Nat := (bitLength s - 1) / 10

/-- Embeds `divisor = 1 << (iec_idx * 10)`. -/
def sizeDivisor (s : Nat) : Nat := 2 ^ (iecIdx s * 10)

/-- Embeds `divided = (self.size * 100) // divisor`. -/
def sizeDivided (s : Nat) : Nat := s * 100 / sizeDivisor s

/-- Embeds `int_part` of `divmod(divided, 100)`. -/
def sizeIntPart (s : Nat) : Nat := sizeDivided s / 100

/-- Embeds `dec_part` of `divmod(divided, 100)`. -/
def sizeDecPart (s : Nat) : Nat := sizeDivided s % 100

/-- Embeds the Python format `f"{dec_part:02d}"` for `dec_part < 100`. -/
def pad2 (n : Nat) : String := if n < 10 then "0" ++ Nat.repr n else Nat.repr n

/-- Embeds `TorrentInfo.size_human_readable`. -/
def sizeHumanReadable : Option Nat → String
  | none => "unknown size"
  | some 0 => "0 B"
  | some s =>
      let formatted :=
        rstripAll '.' (rstripAll '0' (Nat.repr (sizeIntPart s) ++ "." ++ pad2 (sizeDecPart s)))
      formatted ++ " " ++ iecPrefixes.getD (iecIdx s) ""

/-! ## Program A: LocalConfig hostname -/

/-- The prefix of `s` before the first `'.'`, i.e. Python `s.split(".", 1)[0]`.
This is also the spec's reading of "the first `.`-separated label". -/
def firstDotLabel (s : String) : String :=
  String.mk (s.data.takeWhile (fun c => c != '.'))

/-- Embeds `LocalConfig._resolve_local_hostname`.  The system lookup is
modelled as `Option String` (`none` = the lookup raised `OSError`).  The
source returns `hostname.split(".", 1)[0] or hostname`: the first label,
except that a falsy (empty) first label falls back to the whole string. -/
def resolveLocalHostname (lookup : Option String) : String :=
  let hostname := match lookup with
    | some h => h
    | none => "unknown-host"
  let first := firstDotLabel hostname
  if first == "" then hostname else first

/-! ## Program A: NtfyConfig -/

/-- The validated configuration record built by `NtfyConfig.__post_init__`. -/
structure NtfyConfig where
  remoteUsername : String
  remotePassword : String
  remoteServer : String
  remoteTopic : String
deriving DecidableEq, Repr

/-- The observable state of the configuration file as seen by
`NtfyConfig.__post_init__`: absent, unreadable (`OSError` on open/read), or
parsed into an ordered list of sections, each an ordered list of
key/value pairs (the `ConfigParser` view). -/
inductive ConfigSource where
  | missing : ConfigSource
  | unreadable : ConfigSource
  | parsed : List (String × List (String × String)) → ConfigSource

/-- `ConfigParser` section lookup (`parser.has_section` / `parser[name]`). -/
def lookupSection (sections : List (String × List (String × String)))
    (name : String) : Option (List (String × String)) :=
  match sections.find? (fun p => p.1 == name) with
  | some p => some p.2
  | none => none

/-- `SectionProxy.get(key, dflt)`. -/
def sectionGetD (sect : List (String × String)) (key : String) (dflt : String) : String :=
  match sect.find? (fun p => p.1 == key) with
  | some p => p.2
  | none => dflt

/-- Embeds `NtfyConfig._require_section`: the list of keys whose value is
absent or blank, `[key for key in keys if not section.get(key, "").strip()]`. -/
def requireMissing (sect : List (String × String)) (keys : List String) : List String :=
  keys.filter (fun key => pyStrip (sectionGetD sect key "") == "")

/-- Embeds `NtfyConfig.__post_init__`: every `raise ScriptError` becomes an
`Except.error` carrying the message prefix. -/
def loadNtfyConfig : ConfigSource → Except String NtfyConfig
  | .missing => .error "config file not found"
  | .unreadable => .error "could not read config file"
  | .parsed sections =>
    match lookupSection sections "general" with
    | none => .error "config missing [general] section"
    | some sect1 =>
      match lookupSection sections "authentication" with
      | none => .error "config missing [authentication] section"
      | some sect2 =>
        if requireMissing sect1 ["server", "topic"] ≠ [] then
          .error "config missing keys in [general]"
        else if requireMissing sect2 ["username", "password"] ≠ [] then
          .error "config missing keys in [authentication]"
        else
          .ok { remoteUsername := sectionGetD sect2 "username" ""
                remotePassword := sectionGetD sect2 "password" ""
                remoteServer := rstripAll '/' (sectionGetD sect1 "server" "")
                remoteTopic := stripAll '/' (sectionGetD sect1 "topic" "") }

/-- Embeds the `NtfyConfig.server_url` property: `f"{server}/{topic}"`. -/
def NtfyConfig.serverUrl (c : NtfyConfig) : String :=
  c.remoteServer ++ "/" ++ c.remoteTopic

/-! ## Program A: NtfyMessage.push_message -/

/-- Embeds the module constant `POST_RETRY_DELAY = 3`. -/
def POST_RETRY_DELAY : Nat := 3

/-- Embeds the module constant `POST_BACKOFF_EXP = 3`. -/
def POST_BACKOFF_EXP : Nat := 3

/-- Embeds the module constant `POST_TIMEOUT = 10`. -/
def POST_TIMEOUT : Nat := 10

/-- Terminal outcome of the retry loop in `push_message`: a normal return
after a 2xx response, the final `raise ScriptError`, or the (unreachable
for a non-empty range) fall-through of the `for` loop. -/
inductive PushResult where
  | delivered : PushResult
  | raisedError : PushResult
  | fellThrough : PushResult
deriving DecidableEq, Repr

/-- Observable trace of the retry loop: how many POST attempts were
issued, the successive `sleep` durations, and the terminal outcome. -/
structure PushTrace where
  attempts : Nat
  sleeps : List Nat
  result : PushResult
deriving DecidableEq, Repr

/-- Embeds the body of the `for attempt in range(1, POST_BACKOFF_EXP + 1)`
loop of `push_message`, over an explicit list of attempt numbers.  The
network is modelled by `outcome : Nat → Bool` (`true` = the POST for that
attempt number succeeds with a 2xx status, `false` = it raises
`RequestException`, covering network errors and `raise_for_status`). -/
def pushGo (outcome : Nat → Bool) : List Nat → PushTrace
  | [] => ⟨0, [], .fellThrough⟩
  | attempt :: rest =>
    if outcome attempt then
      ⟨1, [], .delivered⟩
    else if attempt < POST_BACKOFF_EXP then
      let t := pushGo outcome rest
      ⟨t.attempts + 1, POST_RETRY_DELAY ^ attempt :: t.sleeps, t.result⟩
    else
      ⟨1, [], .raisedError⟩

/-- Embeds `NtfyMessage.push_message`: the loop runs over
`range(1, POST_BACKOFF_EXP + 1)`. -/
def pushMessage (outcome : Nat → Bool) : PushTrace :=
  pushGo outcome (List.range' 1 POST_BACKOFF_EXP)

/-! ## Program B: process_file and merge_dicts -/

/-- Python ordered-`dict` assignment `entries[k] = v` on an association
list: update the value in place if the key is present, else append. -/
def dictSet : List (String × Nat) → String → Nat → List (String × Nat)
  | [], k, v => [(k, v)]
  | (k', v') :: rest, k, v =>
    if k' = k then (k', v) :: rest else (k', v') :: dictSet rest k v

/-- Python `entries.get(k, d)` on an association list. -/
def dictGetD : List (String × Nat) → String → Nat → Nat
  | [], _, d => d
  | (k', v') :: rest, k, d => if k' = k then v' else dictGetD rest k d

/-- The keys of an association-list dictionary, in insertion order. -/
def dictKeys (e : List (String × Nat)) : List String := e.map Prod.fst

/-- Embeds `line.split("#", 1)[0]`: the prefix before the first `'#'`. -/
def splitHashHead (line : String) : String :=
  String.mk (line.data.takeWhile (fun c => c != '#'))

/-- Embeds `process_file` on one tagged file: the file is the list of its
lines; each line is truncated at the first `'#'`, stripped, and, when
non-empty, stored with the file's source mask. -/
def processFile (mask : Nat) (lines : List String) : List (String × Nat) :=
  lines.foldl
    (fun entries line =>
      let xs := pyStrip (splitHashHead line)
      if xs == "" then entries else dictSet entries xs mask)
    []

/-- The inner-loop step of `merge_dicts`:
`entries[line] = entries.get(line, 0) | mask`. -/
def dictInsertOr (e : List (String × Nat)) (kv : String × Nat) : List (String × Nat) :=
  dictSet e kv.1 (dictGetD e kv.1 0 ||| kv.2)

/-- One iteration of the outer loop of `merge_dicts`: fold one source
dictionary into the accumulator. -/
def mergeOne (e : List (String × Nat)) (dic : List (String × Nat)) : List (String × Nat) :=
  dic.foldl dictInsertOr e

/-- Embeds `merge_dicts`. -/
def mergeDicts (dicts : List (List (String × Nat))) : List (String × Nat) :=
  dicts.foldl mergeOne []

/-! ## Dictionary lemmas (Program B) -/

theorem dictKeys_cons (k' : String) (v' : Nat) (rest : List (String × Nat)) :
    dictKeys ((k', v') :: rest) = k' :: dictKeys rest := rfl

theorem dictGetD_cons (k' : String) (v' : Nat) (rest : List (String × Nat))
    (k : String) (d : Nat) :
    dictGetD ((k', v') :: rest) k d = if k' = k then v' else dictGetD rest k d := rfl

theorem dictSet_cons (k' : String) (v' : Nat) (rest : List (String × Nat))
    (k : String) (v : Nat) :
    dictSet ((k', v') :: rest) k v =
      if k' = k then (k', v) :: rest else (k', v') :: dictSet rest k v := rfl

theorem dictGetD_of_not_mem (e : List (String × Nat)) (k : String) (d : Nat)
    (h : k ∉ dictKeys e) : dictGetD e k d = d := by
  induction e with
  | nil => rfl
  | cons kv rest ih =>
    obtain ⟨k', v'⟩ := kv
    rw [dictKeys_cons] at h
    simp only [List.mem_cons, not_or] at h
    rw [dictGetD_cons, if_neg (fun hh => h.1 hh.symm), ih h.2]

theorem dictSet_of_not_mem (e : List (String × Nat)) (k : String) (v : Nat)
    (h : k ∉ dictKeys e) : dictSet e k v = e ++ [(k, v)] := by
  induction e with
  | nil => rfl
  | cons kv rest ih =>
    obtain ⟨k', v'⟩ := kv
    rw [dictKeys_cons] at h
    simp only [List.mem_cons, not_or] at h
    rw [dictSet_cons, if_neg (fun hh => h.1 hh.symm), ih h.2]
    rfl

theorem dictSet_self (e : List (String × Nat)) (k : String) (v : Nat)
    (hm : k ∈ dictKeys e) (hv : dictGetD e k 0 = v) : dictSet e k v = e := by
  induction e with
  | nil => simp [dictKeys] at hm
  | cons kv rest ih =>
    obtain ⟨k', v'⟩ := kv
    rw [dictSet_cons]
    by_cases hk : k' = k
    · rw [if_pos hk]
      have hv' : v' = v := by
        rw [← hv, dictGetD_cons, if_pos hk]
      rw [hv']
    · rw [if_neg hk]
      have hm' : k ∈ dictKeys rest := by
        rw [dictKeys_cons] at hm
        rcases List.mem_cons.mp hm with h1 | h2
        · exact absurd h1.symm hk
        · exact h2
      have hv' : dictGetD rest k 0 = v := by
        rw [← hv, dictGetD_cons, if_neg hk]
      rw [ih hm' hv']

theorem dictGetD_of_nodup_mem (d : List (String × Nat)) (k : String) (v : Nat)
    (hnd : (dictKeys d).Nodup) (h : (k, v) ∈ d) : dictGetD d k 0 = v := by
  induction d with
  | nil => simp at h
  | cons kv rest ih =>
    obtain ⟨k', v'⟩ := kv
    rw [dictKeys_cons] at hnd
    rcases List.mem_cons.mp h with h1 | h2
    · injection h1 with e1 e2
      subst e1; subst e2
      rw [dictGetD_cons, if_pos rfl]
    · have hk : k' ≠ k := by
        intro e
        apply (List.nodup_cons.mp hnd).1
        rw [e]
        exact List.mem_map_of_mem Prod.fst h2
      rw [dictGetD_cons, if_neg hk, ih (List.nodup_cons.mp hnd).2 h2]

theorem mergeOne_fresh (d : List (String × Nat)) :
    ∀ e, (dictKeys d).Nodup → (∀ k ∈ dictKeys d, k ∉ dictKeys e) →
      mergeOne e d = e ++ d := by
  induction d with
  | nil => intro e _ _; simp [mergeOne]
  | cons kv rest ih =>
    intro e hnd hdisj
    obtain ⟨k, v⟩ := kv
    rw [dictKeys_cons] at hnd hdisj
    have hk : k ∉ dictKeys e := hdisj k (List.mem_cons_self ..)
    show mergeOne (dictInsertOr e (k, v)) rest = _
    have h1 : dictInsertOr e (k, v) = e ++ [(k, v)] := by
      unfold dictInsertOr
      rw [dictGetD_of_not_mem e k 0 hk, Nat.zero_or, dictSet_of_not_mem e k v hk]
    have hkeys : dictKeys (e ++ [(k, v)]) = dictKeys e ++ [k] := by
      simp [dictKeys]
    rw [h1, ih (e ++ [(k, v)]) (List.nodup_cons.mp hnd).2 ?_, List.append_assoc]
    · rfl
    · intro k' hk'
      rw [hkeys]
      simp only [List.mem_append, List.mem_singleton, not_or]
      refine ⟨fun hmem => hdisj k' (List.mem_cons_of_mem _ hk') hmem, fun e' => ?_⟩
      apply (List.nodup_cons.mp hnd).1
      rw [← e']
      exact hk'

theorem mergeOne_absorb (d : List (String × Nat)) :
    ∀ e, (∀ kv ∈ d, kv.1 ∈ dictKeys e ∧ dictGetD e kv.1 0 = kv.2) →
      mergeOne e d = e := by
  induction d with
  | nil => intro e _; rfl
  | cons kv rest ih =>
    intro e hmem
    obtain ⟨k, v⟩ := kv
    have h0 := hmem (k, v) (List.mem_cons_self ..)
    show mergeOne (dictInsertOr e (k, v)) rest = e
    have h1 : dictInsertOr e (k, v) = e := by
      unfold dictInsertOr
      rw [h0.2, Nat.or_self, dictSet_self e k v h0.1 h0.2]
    rw [h1]
    exact ih e (fun kv' hkv' => hmem kv' (List.mem_cons_of_mem _ hkv'))

theorem mem_dictKeys_dictSet (e : List (String × Nat)) (k x : String) (v : Nat)
    (h : x ∈ dictKeys (dictSet e k v)) : x = k ∨ x ∈ dictKeys e := by
  induction e with
  | nil =>
    simp [dictSet, dictKeys] at h
    exact Or.inl h
  | cons kv rest ih =>
    obtain ⟨k', v'⟩ := kv
    rw [dictSet_cons] at h
    by_cases hk : k' = k
    · rw [if_pos hk, dictKeys_cons] at h
      rcases List.mem_cons.mp h with h1 | h2
      · exact Or.inr (by rw [dictKeys_cons]; exact h1 ▸ List.mem_cons_self ..)
      · exact Or.inr (by rw [dictKeys_cons]; exact List.mem_cons_of_mem _ h2)
    · rw [if_neg hk, dictKeys_cons] at h
      rcases List.mem_cons.mp h with h1 | h2
      · exact Or.inr (by rw [dictKeys_cons]; exact h1 ▸ List.mem_cons_self ..)
      · rcases ih h2 with h3 | h4
        · exact Or.inl h3
        · exact Or.inr (by rw [dictKeys_cons]; exact List.mem_cons_of_mem _ h4)

theorem processFile_keys_ne (mask : Nat) (lines : List String) :
    ∀ e, (∀ k ∈ dictKeys e, k ≠ "") →
      ∀ k ∈ dictKeys (lines.foldl
        (fun entries line =>
          let xs := pyStrip (splitHashHead line)
          if xs == "" then entries else dictSet entries xs mask) e), k ≠ "" := by
  induction lines with
  | nil => intro e he k hk; exact he k hk
  | cons line rest ih =>
    intro e he k hk
    rw [List.foldl_cons] at hk
    refine ih _ ?_ k hk
    intro k' hk'
    dsimp only at hk'
    split at hk'
    · exact he k' hk'
    · next hxs =>
      rcases mem_dictKeys_dictSet e _ k' mask hk' with h1 | h2
      · intro e'
        apply hxs
        rw [h1] at e'
        rw [e']
        rfl
      · exact he k' h2

/-- C7: `merge_dicts` accumulates the bitwise OR of masks per key; merging
`{"x": 1}` and `{"x": 2}` in either order yields `{"x": 3}`, and merging
any map (with the unique-key invariant of a Python dict) with itself
yields the same map. -/
theorem merge_dicts_or_comm_idem (d : List (String × Nat))
    (hnd : (dictKeys d).Nodup) :
    mergeDicts [[("x", 1)], [("x", 2)]] = [("x", 3)] ∧
    mergeDicts [[("x", 2)], [("x", 1)]] = [("x", 3)] ∧
    mergeDicts [d, d] = d := by
  refine ⟨by decide, by decide, ?_⟩
  show mergeOne (mergeOne [] d) d = d
  have h1 : mergeOne [] d = d := by
    have := mergeOne_fresh d [] hnd (fun k _ => by simp [dictKeys])
    simpa using this
  rw [h1]
  exact mergeOne_absorb d d (fun kv hkv =>
    ⟨List.mem_map_of_mem Prod.fst hkv,
     dictGetD_of_nodup_mem d kv.1 kv.2 hnd (by simpa using hkv)⟩)

theorem merge_dicts_or_comm_idem_witness :
    mergeDicts [[("x", 1)], [("x", 2)]] = [("x", 3)] ∧
    mergeDicts [[("x", 2)], [("x", 1)]] = [("x", 3)] ∧
    mergeDicts [[("a", 5)], [("a", 5)]] = [("a", 5)] :=
  merge_dicts_or_comm_idem [("a", 5)] (by decide)

/-- C8: comment stripping composes with merging: a file with mask 1
containing `"foo # comment"` and a file with mask 2 containing `"foo"`
merge to the entry `"foo"` with mask 3, and lines that are empty after
comment-stripping and trimming never appear as keys. -/
theorem process_file_merge_comment_strip (mask : Nat) (lines : List String)
    (k : String) (hk : k ∈ dictKeys (processFile mask lines)) :
    processFile 1 ["foo # comment"] = [("foo", 1)] ∧
    processFile 2 ["foo"] = [("foo", 2)] ∧
    mergeDicts [processFile 1 ["foo # comment"], processFile 2 ["foo"]] = [("foo", 3)] ∧
    k ≠ "" := by
  refine ⟨by decide, by decide, by decide, ?_⟩
  exact processFile_keys_ne mask lines [] (by simp [dictKeys]) k hk

theorem process_file_merge_comment_strip_witness :
    processFile 1 ["foo # comment"] = [("foo", 1)] ∧
    processFile 2 ["foo"] = [("foo", 2)] ∧
    mergeDicts [processFile 1 ["foo # comment"], processFile 2 ["foo"]] = [("foo", 3)] ∧
    "foo" ≠ "" :=
  process_file_merge_comment_strip 1 ["foo # comment"] "foo" (by decide)

/-- C2: when every POST attempt fails, `push_message` performs exactly
`POST_BACKOFF_EXP = 3` attempts, sleeps `3^1` then `3^2` seconds between
consecutive attempts (a strictly increasing sequence), and after the last
attempt raises `ScriptError` instead of sleeping again. -/
theorem push_message_retries_exhaust (outcome : Nat → Bool)
    (h : ∀ a, outcome a = false) :
    pushMessage outcome =
      ⟨POST_BACKOFF_EXP, [POST_RETRY_DELAY ^ 1, POST_RETRY_DELAY ^ 2],
        PushResult.raisedError⟩ ∧
    (pushMessage outcome).attempts = 3 ∧
    (pushMessage outcome).sleeps.Chain' (· < ·) := by
  have key : pushMessage outcome = ⟨3, [3, 9], PushResult.raisedError⟩ := by
    show pushGo outcome (List.range' 1 POST_BACKOFF_EXP) = _
    have hr : List.range' 1 POST_BACKOFF_EXP = [1, 2, 3] := rfl
    rw [hr]
    simp [pushGo, h, POST_BACKOFF_EXP, POST_RETRY_DELAY]
  refine ⟨?_, ?_, ?_⟩
  · rw [key]; decide
  · rw [key]
  · rw [key]
    exact List.Chain.cons (by norm_num) List.Chain.nil

theorem push_message_retries_exhaust_witness :
    pushMessage (fun _ => false) =
      ⟨POST_BACKOFF_EXP, [POST_RETRY_DELAY ^ 1, POST_RETRY_DELAY ^ 2],
        PushResult.raisedError⟩ ∧
    (pushMessage (fun _ => false)).attempts = 3 ∧
    (pushMessage (fun _ => false)).sleeps.Chain' (· < ·) :=
  push_message_retries_exhaust (fun _ => false) (fun _ => rfl)

/-- C5 counterexample: for the lookup result `".foo"`, the code returns
the whole string `".foo"`, not the (empty) prefix before the first `'.'`,
so `LocalConfig.hostname` does not always equal the first `.`-separated
label of the looked-up string. -/
theorem resolve_hostname_first_label_counterexample :
    resolveLocalHostname (some ".foo") = ".foo" ∧
    firstDotLabel ".foo" = "" ∧
    resolveLocalHostname (some ".foo") ≠ firstDotLabel ".foo" := by decide

/-- C5 amended: `LocalConfig.hostname` equals the prefix of the looked-up
string before the first `'.'` whenever that prefix is non-empty, and the
whole looked-up string when that prefix is empty; on lookup failure it is
`"unknown-host"`. -/
theorem resolve_hostname_amended :
    resolveLocalHostname none = "unknown-host" ∧
    ∀ h : String, resolveLocalHostname (some h) =
      if firstDotLabel h = "" then h else firstDotLabel h := by
  refine ⟨by decide, ?_⟩
  intro h
  by_cases hc : firstDotLabel h = ""
  · simp [resolveLocalHostname, hc]
  · simp [resolveLocalHostname, hc]

/-! ## Name sanitization lemmas (Program A) -/

theorem sanitizeName_all (printable : Char → Bool) (hdot : printable '.' = true)
    (value : List Char) : (sanitizeName printable value).all printable = true := by
  unfold sanitizeName
  split
  · assumption
  · rw [List.all_eq_true]
    intro x hx
    rw [List.mem_map] at hx
    obtain ⟨ch, _, rfl⟩ := hx
    by_cases hc : printable ch = true
    · rw [if_pos hc]; exact hc
    · rw [if_neg hc]; exact hdot

theorem sanitizeName_length (printable : Char → Bool) (value : List Char) :
    (sanitizeName printable value).length = value.length := by
  unfold sanitizeName
  split
  · rfl
  · exact List.length_map ..

theorem sanitizeName_of_all (printable : Char → Bool) (value : List Char)
    (h : value.all printable = true) : sanitizeName printable value = value := by
  unfold sanitizeName
  rw [if_pos h]

theorem truncateName_of_le (value : List Char) (h : value.length ≤ 255) :
    truncateName value = value := by
  unfold truncateName
  rw [if_neg (by omega)]

theorem truncateName_all (printable : Char → Bool) (hell : printable '…' = true)
    (value : List Char) (h : value.all printable = true) :
    (truncateName value).all printable = true := by
  unfold truncateName
  split
  · rw [List.all_append, Bool.and_eq_true]
    refine ⟨?_, by simp [hell]⟩
    rw [List.all_eq_true]
    exact fun x hx => List.all_eq_true.mp h x (List.mem_of_mem_take hx)
  · exact h

theorem truncateName_length (value : List Char) :
    (truncateName value).length ≤ 255 ∨ (truncateName value).length = value.length := by
  unfold truncateName
  split
  · left
    rw [List.length_append, List.length_take]
    simp only [List.length_singleton]
    omega
  · right; rfl

theorem truncateName_ne_nil (value : List Char) (h : value ≠ []) :
    truncateName value ≠ [] := by
  unfold truncateName
  split
  · simp
  · exact h

theorem parseName_sound (printable : Char → Bool) (value r : List Char)
    (hdot : printable '.' = true) (hell : printable '…' = true)
    (h : parseName printable value = some r) :
    r ≠ [] ∧ r.all printable = true ∧ r.length ≤ 255 := by
  unfold parseName at h
  split at h
  · exact absurd h (by simp)
  · next hv =>
    injection h with h'
    subst h'
    refine ⟨truncateName_ne_nil _ ?_,
      truncateName_all printable hell _ (sanitizeName_all printable hdot value), ?_⟩
    · intro e
      apply hv
      have := sanitizeName_length printable value
      rw [e] at this
      exact List.eq_nil_of_length_eq_zero this.symm
    · rcases truncateName_length (sanitizeName printable value) with h1 | h2
      · exact h1
      · rw [h2, sanitizeName_length]
        unfold truncateName at h2
        by_cases hlen : (sanitizeName printable value).length ≥ 256
        · rw [if_pos hlen] at h2
          rw [List.length_append, List.length_take] at h2
          simp at h2
          omega
        · rw [sanitizeName_length] at hlen
          omega

/-- C6: name sanitization is idempotent: applying `_parse_name` to a
non-`None` result of `_parse_name` yields that same string, for any
printability predicate under which `'.'` and `'…'` are printable (as they
are for Python's `str.isprintable`). -/
theorem parse_name_idempotent (printable : Char → Bool) (s r : List Char)
    (hdot : printable '.' = true) (hell : printable '…' = true)
    (h : parseName printable s = some r) :
    parseName printable r = some r := by
  obtain ⟨hne, hall, hlen⟩ := parseName_sound printable s r hdot hell h
  unfold parseName
  rw [if_neg hne, sanitizeName_of_all printable r hall, truncateName_of_le r hlen]

theorem parse_name_idempotent_witness :
    parseName asciiPrintable "a.b".data = some "a.b".data :=
  parse_name_idempotent asciiPrintable "a\nb".data "a.b".data
    (by decide) (by decide) (by decide)

/-- C9: `_parse_name` returns `None` exactly on empty input; otherwise the
result is all-printable of length at most 255, and inputs of length ≥ 256
become the first 254 sanitized characters followed by one ellipsis. -/
theorem parse_name_none_iff_and_bounds (printable : Char → Bool) (s : List Char)
    (hdot : printable '.' = true) (hell : printable '…' = true) :
    (parseName printable s = none ↔ s = []) ∧
    (∀ r, parseName printable s = some r →
      r.all printable = true ∧ r.length ≤ 255) ∧
    (s.length ≥ 256 →
      parseName printable s = some ((sanitizeName printable s).take 254 ++ ['…'])) := by
  refine ⟨?_, ?_, ?_⟩
  · unfold parseName
    split
    · simp_all
    · simp_all
  · intro r h
    obtain ⟨_, h2, h3⟩ := parseName_sound printable s r hdot hell h
    exact ⟨h2, h3⟩
  · intro hlen
    have hs : s ≠ [] := by
      intro e
      rw [e] at hlen
      simp at hlen
    unfold parseName
    rw [if_neg hs]
    unfold truncateName
    rw [if_pos (by rw [sanitizeName_length]; exact hlen)]

set_option maxRecDepth 4000 in
theorem parse_name_none_iff_and_bounds_witness :
    parseName asciiPrintable (List.replicate 256 'a') =
      some ((sanitizeName asciiPrintable (List.replicate 256 'a')).take 254 ++ ['…']) :=
  (parse_name_none_iff_and_bounds asciiPrintable (List.replicate 256 'a')
    (by decide) (by decide)).2.2 (by decide)

/-! ## Size formatting theorems (Program A) -/

/-- C1: for every size in `[1, 2^64 - 1]` the unit power chosen by
`size_human_readable` through `iec_idx = (bit_length - 1) // 10` satisfies
`1024^k ≤ size < 1024^(k+1)`, stays within the 7-entry unit tuple
(`k ≤ 6`, i.e. at most EiB), and coincides with the largest-binary-unit
rule (`k = ⌊log₁₀₂₄ size⌋`); size `none` yields `"unknown size"` and size
`0` yields exactly `"0 B"`. -/
theorem size_human_readable_unit_correct (s : Nat) (h1 : 1 ≤ s)
    (h2 : s ≤ 2 ^ 64 - 1) :
    sizeHumanReadable none = "unknown size" ∧
    sizeHumanReadable (some 0) = "0 B" ∧
    1024 ^ iecIdx s ≤ s ∧
    s < 1024 ^ (iecIdx s + 1) ∧
    iecIdx s ≤ 6 ∧
    Nat.log 1024 s = iecIdx s := by
  have hpos : 0 < Nat.size s := Nat.size_pos.mpr h1
  have hm : Nat.size s = (Nat.size s - 1) + 1 := by omega
  set m := Nat.size s - 1 with hmdef
  have low : 2 ^ m ≤ s := Nat.lt_size.mp (by omega)
  have high : s < 2 ^ (m + 1) := hm ▸ Nat.lt_size_self s
  have hkdef : iecIdx s = m / 10 := rfl
  have hlow1024 : 1024 ^ (m / 10) ≤ s := by
    have e : (1024 : Nat) ^ (m / 10) = 2 ^ (10 * (m / 10)) := by
      rw [pow_mul]
      norm_num
    rw [e]
    exact le_trans (Nat.pow_le_pow_right (by norm_num) (by omega)) low
  have hhigh1024 : s < 1024 ^ (m / 10 + 1) := by
    have e : (1024 : Nat) ^ (m / 10 + 1) = 2 ^ (10 * (m / 10 + 1)) := by
      rw [pow_mul]
      norm_num
    rw [e]
    exact lt_of_lt_of_le high (Nat.pow_le_pow_right (by norm_num) (by omega))
  have hbound : m ≤ 63 := by
    have hs64 : s < 2 ^ 64 := lt_of_le_of_lt h2 (by norm_num)
    have := Nat.size_le.mpr hs64
    omega
  refine ⟨rfl, rfl, ?_, ?_, ?_, ?_⟩
  · rw [hkdef]; exact hlow1024
  · rw [hkdef]; exact hhigh1024
  · rw [hkdef]; omega
  · rw [hkdef]; exact Nat.log_eq_of_pow_le_of_lt_pow hlow1024 hhigh1024

theorem size_human_readable_unit_correct_witness :
    sizeHumanReadable none = "unknown size" ∧
    sizeHumanReadable (some 0) = "0 B" ∧
    1024 ^ iecIdx 2048 ≤ 2048 ∧
    2048 < 1024 ^ (iecIdx 2048 + 1) ∧
    iecIdx 2048 ≤ 6 ∧
    Nat.log 1024 2048 = iecIdx 2048 :=
  size_human_readable_unit_correct 2048 (by norm_num) (by norm_num)

/-- C10: the two-decimal value displayed by `size_human_readable` is
computed by truncation toward zero: `divided = ⌊size * 100 / 1024^k⌋`
(characterised by the two floor inequalities), the displayed components
`int_part.dec_part` recombine to exactly `divided / 100`, and this value
never exceeds the exact quotient `size / 1024^k`. -/
theorem size_human_readable_truncation (s : Nat) (_h1 : 1 ≤ s)
    (_h2 : s ≤ 2 ^ 64 - 1) :
    sizeDivided s = s * 100 / 2 ^ (iecIdx s * 10) ∧
    sizeDivisor s = 1024 ^ iecIdx s ∧
    1024 ^ iecIdx s * sizeDivided s ≤ s * 100 ∧
    s * 100 < 1024 ^ iecIdx s * (sizeDivided s + 1) ∧
    ((sizeIntPart s : ℚ) + (sizeDecPart s : ℚ) / 100 = (sizeDivided s : ℚ) / 100) ∧
    (sizeDivided s : ℚ) / 100 ≤ (s : ℚ) / (1024 : ℚ) ^ iecIdx s := by
  have hdiv : sizeDivisor s = 1024 ^ iecIdx s := by
    unfold sizeDivisor
    rw [mul_comm, pow_mul]
    norm_num
  have hdpos : 0 < (1024 : Nat) ^ iecIdx s := pow_pos (by norm_num) _
  have hfloor1 : 1024 ^ iecIdx s * sizeDivided s ≤ s * 100 := by
    unfold sizeDivided
    rw [hdiv, mul_comm]
    exact Nat.div_mul_le_self ..
  have hfloor2 : s * 100 < 1024 ^ iecIdx s * (sizeDivided s + 1) := by
    unfold sizeDivided
    rw [hdiv]
    have hdm := Nat.div_add_mod (s * 100) (1024 ^ iecIdx s)
    have hmlt := Nat.mod_lt (s * 100) hdpos
    calc s * 100
        = 1024 ^ iecIdx s * (s * 100 / 1024 ^ iecIdx s)
            + s * 100 % 1024 ^ iecIdx s := hdm.symm
      _ < 1024 ^ iecIdx s * (s * 100 / 1024 ^ iecIdx s) + 1024 ^ iecIdx s :=
          Nat.add_lt_add_left hmlt _
      _ = 1024 ^ iecIdx s * (s * 100 / 1024 ^ iecIdx s + 1) := by ring
  refine ⟨rfl, hdiv, hfloor1, hfloor2, ?_, ?_⟩
  · have hq : 100 * sizeIntPart s + sizeDecPart s = sizeDivided s :=
      Nat.div_add_mod (sizeDivided s) 100
    have hqq : (100 : ℚ) * (sizeIntPart s : ℚ) + (sizeDecPart s : ℚ)
        = (sizeDivided s : ℚ) := by exact_mod_cast congrArg Nat.cast hq
    field_simp
    linarith
  · rw [div_le_div_iff₀ (by norm_num) (by positivity)]
    have h' : sizeDivided s * 1024 ^ iecIdx s ≤ s * 100 := by
      rw [mul_comm]
      exact hfloor1
    exact_mod_cast h'

theorem size_human_readable_truncation_witness :
    sizeDivided 2047 = 2047 * 100 / 2 ^ (iecIdx 2047 * 10) ∧
    sizeDivisor 2047 = 1024 ^ iecIdx 2047 ∧
    1024 ^ iecIdx 2047 * sizeDivided 2047 ≤ 2047 * 100 ∧
    2047 * 100 < 1024 ^ iecIdx 2047 * (sizeDivided 2047 + 1) ∧
    ((sizeIntPart 2047 : ℚ) + (sizeDecPart 2047 : ℚ) / 100
      = (sizeDivided 2047 : ℚ) / 100) ∧
    (sizeDivided 2047 : ℚ) / 100 ≤ (2047 : ℚ) / (1024 : ℚ) ^ iecIdx 2047 :=
  size_human_readable_truncation 2047 (by norm_num) (by norm_num)

/-! ## Configuration loading theorems (Program A) -/

theorem requireMissing_eq_nil (sect : List (String × String)) (keys : List String) :
    requireMissing sect keys = [] ↔
      ∀ key ∈ keys, pyStrip (sectionGetD sect key "") ≠ "" := by
  unfold requireMissing
  rw [List.filter_eq_nil_iff]
  constructor
  · intro h key hk e
    exact h key hk (by rw [e]; rfl)
  · intro h key hk hbeq
    exact h key hk (by simpa using hbeq)

/-- C3: `NtfyConfig` construction succeeds exactly when the file exists,
is readable, parses with both a `[general]` and an `[authentication]`
section, and all four required keys (`server`, `topic`, `username`,
`password`) are present and non-blank in their sections; in every other
case it fails with `ScriptError`. -/
theorem ntfy_config_ok_iff (src : ConfigSource) :
    (∃ cfg, loadNtfyConfig src = .ok cfg) ↔
    ∃ sections sect1 sect2,
      src = ConfigSource.parsed sections ∧
      lookupSection sections "general" = some sect1 ∧
      lookupSection sections "authentication" = some sect2 ∧
      (∀ key ∈ (["server", "topic"] : List String),
        pyStrip (sectionGetD sect1 key "") ≠ "") ∧
      (∀ key ∈ (["username", "password"] : List String),
        pyStrip (sectionGetD sect2 key "") ≠ "") := by
  cases src with
  | missing => simp [loadNtfyConfig]
  | unreadable => simp [loadNtfyConfig]
  | parsed sections =>
    constructor
    · rintro ⟨cfg, h⟩
      simp only [loadNtfyConfig] at h
      cases hg : lookupSection sections "general" with
      | none =>
        simp only [hg] at h
        exact absurd h (by simp)
      | some sect1 =>
        simp only [hg] at h
        cases ha : lookupSection sections "authentication" with
        | none =>
          simp only [ha] at h
          exact absurd h (by simp)
        | some sect2 =>
          simp only [ha] at h
          by_cases hr1 : requireMissing sect1 ["server", "topic"] = []
          · by_cases hr2 : requireMissing sect2 ["username", "password"] = []
            · exact ⟨sections, sect1, sect2, rfl, hg, ha,
                (requireMissing_eq_nil _ _).mp hr1,
                (requireMissing_eq_nil _ _).mp hr2⟩
            · rw [if_neg (fun hc => hc hr1), if_pos hr2] at h
              simp at h
          · rw [if_pos hr1] at h
            simp at h
    · rintro ⟨sections', sect1, sect2, heq, hg, ha, hk1, hk2⟩
      injection heq with he
      subst he
      refine ⟨{ remoteUsername := sectionGetD sect2 "username" ""
                remotePassword := sectionGetD sect2 "password" ""
                remoteServer := rstripAll '/' (sectionGetD sect1 "server" "")
                remoteTopic := stripAll '/' (sectionGetD sect1 "topic" "") }, ?_⟩
      simp only [loadNtfyConfig, hg, ha]
      rw [if_neg (fun hc => hc ((requireMissing_eq_nil _ _).mpr hk1)),
        if_neg (fun hc => hc ((requireMissing_eq_nil _ _).mpr hk2))]

/-! ## Slash-stripping lemmas (Program A) -/

theorem head?_dropWhile_not {α : Type} (p : α → Bool) (l : List α) (a : α)
    (h : (l.dropWhile p).head? = some a) : p a = false := by
  induction l with
  | nil => simp [List.dropWhile] at h
  | cons x xs ih =>
    rw [List.dropWhile_cons] at h
    split at h
    · exact ih h
    · next hx =>
      injection h with h'
      subst h'
      cases hpa : p x
      · rfl
      · exact absurd hpa hx

theorem getLast?_dropWhile {α : Type} (p : α → Bool) (l : List α) :
    (l.dropWhile p).getLast? = none ∨ (l.dropWhile p).getLast? = l.getLast? := by
  by_cases h : l.dropWhile p = []
  · left
    rw [h]
    rfl
  · right
    conv_rhs => rw [← List.takeWhile_append_dropWhile p l]
    rw [List.getLast?_append_of_ne_nil _ h]

theorem rstripAll_getLast_ne (c : Char) (s : String) :
    (rstripAll c s).data.getLast? ≠ some c := by
  show ((s.data.reverse.dropWhile fun x => x == c).reverse).getLast? ≠ some c
  rw [List.getLast?_reverse]
  intro h
  have := head?_dropWhile_not _ _ _ h
  simp at this

theorem stripAll_getLast_ne (c : Char) (s : String) :
    (stripAll c s).data.getLast? ≠ some c := by
  show (((s.data.dropWhile fun x => x == c).reverse.dropWhile
    fun x => x == c).reverse).getLast? ≠ some c
  rw [List.getLast?_reverse]
  intro h
  have := head?_dropWhile_not _ _ _ h
  simp at this

theorem stripAll_head_ne (c : Char) (s : String) :
    (stripAll c s).data.head? ≠ some c := by
  show (((s.data.dropWhile fun x => x == c).reverse.dropWhile
    fun x => x == c).reverse).head? ≠ some c
  rw [List.head?_reverse]
  rcases getLast?_dropWhile (fun x => x == c)
    ((s.data.dropWhile fun x => x == c).reverse) with h | h
  · rw [h]
    simp
  · rw [h, List.getLast?_reverse]
    intro hh
    have := head?_dropWhile_not _ _ _ hh
    simp at this

theorem loadNtfyConfig_ok_shape (src : ConfigSource) (cfg : NtfyConfig)
    (h : loadNtfyConfig src = .ok cfg) :
    ∃ v t, cfg.remoteServer = rstripAll '/' v ∧ cfg.remoteTopic = stripAll '/' t := by
  cases src with
  | missing => simp [loadNtfyConfig] at h
  | unreadable => simp [loadNtfyConfig] at h
  | parsed sections =>
    simp only [loadNtfyConfig] at h
    cases hg : lookupSection sections "general" with
    | none =>
      simp only [hg] at h
      exact absurd h (by simp)
    | some sect1 =>
      simp only [hg] at h
      cases ha : lookupSection sections "authentication" with
      | none =>
        simp only [ha] at h
        exact absurd h (by simp)
      | some sect2 =>
        simp only [ha] at h
        split at h
        · simp at h
        · split at h
          · simp at h
          · injection h with h'
            subst h'
            exact ⟨sectionGetD sect1 "server" "", sectionGetD sect1 "topic" "", rfl, rfl⟩

/-- C4: every successfully loaded configuration has all trailing slashes
stripped from `remote_server` and all surrounding slashes stripped from
`remote_topic`, so `server_url = remote_server + "/" + remote_topic`
contains exactly one separating slash (the part before it does not end
with `'/'`, the part after it neither starts nor ends with `'/'`); in
particular `server = "https://ntfy.sh/"` and `topic = "/my-topic/"` load
successfully with `server_url = "https://ntfy.sh/my-topic"`. -/
theorem ntfy_config_server_url_single_slash (src : ConfigSource) (cfg : NtfyConfig)
    (h : loadNtfyConfig src = .ok cfg) :
    cfg.serverUrl = cfg.remoteServer ++ "/" ++ cfg.remoteTopic ∧
    cfg.remoteServer.data.getLast? ≠ some '/' ∧
    cfg.remoteTopic.data.head? ≠ some '/' ∧
    cfg.remoteTopic.data.getLast? ≠ some '/' ∧
    Except.map NtfyConfig.serverUrl
      (loadNtfyConfig (ConfigSource.parsed
        [("general", [("server", "https://ntfy.sh/"), ("topic", "/my-topic/")]),
         ("authentication", [("username", "alice"), ("password", "s3cr3t")])])) =
      .ok "https://ntfy.sh/my-topic" := by
  obtain ⟨v, t, hv, ht⟩ := loadNtfyConfig_ok_shape src cfg h
  refine ⟨rfl, ?_, ?_, ?_, ?_⟩
  · rw [hv]
    exact rstripAll_getLast_ne '/' v
  · rw [ht]
    exact stripAll_head_ne '/' t
  · rw [ht]
    exact stripAll_getLast_ne '/' t
  · rfl

theorem ntfy_config_server_url_single_slash_witness :
    let cfg : NtfyConfig :=
      { remoteUsername := "alice", remotePassword := "s3cr3t",
        remoteServer := "https://ntfy.sh", remoteTopic := "my-topic" }
    cfg.serverUrl = cfg.remoteServer ++ "/" ++ cfg.remoteTopic ∧
    cfg.remoteServer.data.getLast? ≠ some '/' ∧
    cfg.remoteTopic.data.head? ≠ some '/' ∧
    cfg.remoteTopic.data.getLast? ≠ some '/' ∧
    Except.map NtfyConfig.serverUrl
      (loadNtfyConfig (ConfigSource.parsed
        [("general", [("server", "https://ntfy.sh/"), ("topic", "/my-topic/")]),
         ("authentication", [("username", "alice"), ("password", "s3cr3t")])])) =
      .ok "https://ntfy.sh/my-topic" :=
  ntfy_config_server_url_single_slash
    (ConfigSource.parsed
      [("general", [("server", "https://ntfy.sh/"), ("topic", "/my-topic/")]),
       ("authentication", [("username", "alice"), ("password", "s3cr3t")])])
    { remoteUsername := "alice", remotePassword := "s3cr3t",
      remoteServer := "https://ntfy.sh", remoteTopic := "my-topic" }
    (by rfl)
